import Mathlib

/-!
Verification of the DashboardStock application core (`src/app.py`).

The embedding models the pandas values flowing through the app as exact
rationals extended with the IEEE special values NaN and signed infinity,
since `pct_change` can produce NaN (first row of a group, 0/0) and ±∞
(division by a zero prior close), and `cumsum`/`fillna` treat these
specially.  Dates are modelled as integers (orderable timestamps) and the
external collaborators (yfinance, pandas.read_csv) as function parameters.
-/

/-- A pandas float cell: an exact rational, NaN, or a signed infinity. -/
inductive PVal where
  | num (q : ℚ)
  | nan
  | inf (pos : Bool)
deriving DecidableEq, Repr

namespace PVal

/-- IEEE-754 addition on `PVal` (exact on finite values). -/
def add : PVal → PVal → PVal
  | nan, _ => nan
  | _, nan => nan
  | num a, num b => num (a + b)
  | inf p, num _ => inf p
  | num _, inf p => inf p
  | inf p, inf q => if p = q then inf p else nan

/-- Is this value NaN (pandas' missing value, caught by `fillna`)? -/
def isNan : PVal → Bool
  | nan => true
  | _ => false

/-- Is this value finite (neither NaN nor ±∞)? -/
def isFinite : PVal → Bool
  | num _ => true
  | _ => false

end PVal

/-- A row of the concatenated price table built by `download_stock_data`:
columns `Date`, `Close`, `Name`. -/
structure PriceRow where
  date : Int
  close : ℚ
  name : String
deriving DecidableEq, Repr

/-- A row of the table returned by `calculate_cumulative_change`:
columns `Date`, `Name`, `Cumulative_Change`. -/
structure ChangeRow where
  date : Int
  name : String
  cumulative : PVal
deriving DecidableEq, Repr

/-- The column projection `df[['Date', 'Name', 'Cumulative_Change']]` on
the last line of `calculate_cumulative_change`. -/
def calcOutputCols : List String := ["Date", "Name", "Cumulative_Change"]

/-- `pandas.Series.pct_change` for one step: `cur / prev - 1` under IEEE
semantics.  A zero `prev` gives ±∞ (or NaN for 0/0) rather than raising. -/
def pctChange (prev cur : ℚ) : PVal :=
  if prev = 0 then
    (if cur = 0 then .nan else .inf (decide (0 < cur)))
  else .num ((cur - prev) / prev)

/-- Most recent close recorded for `n` (the association list is kept most
recent first). -/
def lookupClose (n : String) : List (String × ℚ) → Option ℚ
  | [] => none
  | (m, c) :: rest => if m = n then some c else lookupClose n rest

/-- `df.groupby('Name')['Close'].pct_change()` aligned to the original row
order: each row's change is taken against the previous row of the same
name; `seen` holds the closes of already-processed rows, most recent
first. -/
def changeColAux (seen : List (String × ℚ)) : List PriceRow → List PVal
  | [] => []
  | r :: rs =>
      (match lookupClose r.name seen with
       | none => PVal.nan
       | some prev => pctChange prev r.close)
      :: changeColAux ((r.name, r.close) :: seen) rs

/-- The `Change` column of `calculate_cumulative_change`. -/
def changeCol (rows : List PriceRow) : List PVal :=
  changeColAux [] rows

/-- The row lambda of `calculate_cumulative_change`:
`0 if row['Date'] <= cutoff_date else row['Change']`. -/
def adjustedChange (cutoff : Int) (date : Int) (change : PVal) : PVal :=
  if date ≤ cutoff then .num 0 else change

/-- The `Adjusted_Change` column (`df.apply(..., axis=1)`). -/
def adjustedCol (rows : List PriceRow) (cutoff : Int) : List PVal :=
  List.zipWith (fun (r : PriceRow) c => adjustedChange cutoff r.date c)
    rows (changeCol rows)

/-- Running `cumsum` accumulator for name `n` (0 before any value). -/
def lookupAcc (n : String) : List (String × PVal) → PVal
  | [] => .num 0
  | (m, v) :: rest => if m = n then v else lookupAcc n rest

/-- `df.groupby('Name')['Adjusted_Change'].cumsum()` aligned to the
original row order: per-name running IEEE sum; a NaN input yields a NaN
output and is skipped (pandas `skipna`). -/
def cumsumAux (accs : List (String × PVal)) : List (String × PVal) → List PVal
  | [] => []
  | (n, v) :: rest =>
      if v.isNan then
        PVal.nan :: cumsumAux accs rest
      else
        (PVal.add (lookupAcc n accs) v)
          :: cumsumAux ((n, PVal.add (lookupAcc n accs) v) :: accs) rest

/-- `.fillna(0)` on one cell. -/
def fillna0 (v : PVal) : PVal :=
  if v.isNan then .num 0 else v

/-- The `Cumulative_Change` column:
`df.groupby('Name')['Adjusted_Change'].cumsum().fillna(0)`. -/
def cumulativeCol (rows : List PriceRow) (cutoff : Int) : List PVal :=
  (cumsumAux []
      (List.zipWith (fun (r : PriceRow) a => (r.name, a)) rows
        (adjustedCol rows cutoff))).map fillna0

/-- `calculate_cumulative_change(df, cutoff_date)` (src/app.py lines
104-112): works on a copy of its input, computes per-name `pct_change`,
zeroes changes dated at or before the cutoff, accumulates per-name, and
returns the columns `Date`, `Name`, `Cumulative_Change`, one output row
per input row in the same order. -/
def calculate_cumulative_change (rows : List PriceRow) (cutoff : Int) :
    List ChangeRow :=
  List.zipWith (fun (r : PriceRow) c => ChangeRow.mk r.date r.name c)
    rows (cumulativeCol rows cutoff)

/-- The close of the previous row of the same name (spec reading: the
prior observation of the row's ticker group), `none` for the group's
first row. -/
def prevClose (rows : List PriceRow) (i : ℕ) : Option ℚ :=
  match rows[i]? with
  | none => none
  | some r =>
      lookupClose r.name ((rows.take i).reverse.map fun s => (s.name, s.close))

/-- The raw day-over-day percentage change of row `i` within its ticker
group, written from the spec: `(close[i] - close[i-1]) / close[i-1]`
against the group's previous observation, undefined (NaN) for the group's
first observation. -/
def rawChange (rows : List PriceRow) (i : ℕ) : PVal :=
  match rows[i]?, prevClose rows i with
  | none, _ => PVal.nan
  | some _, none => PVal.nan
  | some r, some p => pctChange p r.close

/-! ## Market data fetcher (`download_stock_data`, src/app.py lines 82-101) -/

/-- A raw row of the provider's daily history (`yf.download`): index date
plus OHLCV cells.  `op` stands for the `Open` column. -/
structure YfRow where
  date : Int
  op : ℚ
  high : ℚ
  low : ℚ
  close : ℚ
  volume : ℚ
deriving DecidableEq, Repr

/-- A provider result frame: the rows after `reset_index`, together with
whether the provider labelled columns hierarchically (a `MultiIndex`). -/
structure YfFrame where
  multiIdx : Bool
  rows : List YfRow
deriving DecidableEq, Repr

/-- `s.strip()`: drop leading and trailing whitespace (labels modelled as
character lists so that they compute). -/
def stripChars (l : List Char) : List Char :=
  ((l.dropWhile Char.isWhitespace).reverse.dropWhile Char.isWhitespace).reverse

/-- `' '.join(col).strip()`: collapse one hierarchical column label. -/
def flattenLevels (levels : List (List Char)) : List Char :=
  stripChars (List.intercalate [' '] levels)

/-- `col.split(' ')[0]`: the first space-separated token of a label. -/
def headToken (s : List Char) : List Char :=
  s.takeWhile fun c => c != ' '

/-- Hierarchical column labels of a provider frame after `reset_index`
for symbol `sym` (the `Date` index column carries an empty second level). -/
def yfColsMulti (sym : List Char) : List (List (List Char)) :=
  [["Date".data, []], ["Open".data, sym], ["High".data, sym],
   ["Low".data, sym], ["Close".data, sym], ["Volume".data, sym]]

/-- Flat column labels of a provider frame after `reset_index`. -/
def yfColsFlat : List (List Char) :=
  ["Date".data, "Open".data, "High".data, "Low".data, "Close".data,
   "Volume".data]

/-- The column labels after the two renaming lines of
`download_stock_data` (join-and-strip `MultiIndex` labels, then keep the
first token of every label). -/
def processCols (multiIdx : Bool) (sym : List Char) : List (List Char) :=
  (if multiIdx then (yfColsMulti sym).map flattenLevels else yfColsFlat).map
    headToken

/-- `data['Name'] = stock` followed by `data[['Date', 'Close', 'Name']]`. -/
def normalizeFrame (sym : String) (f : YfFrame) : List PriceRow :=
  f.rows.map fun r => PriceRow.mk r.date r.close sym

/-- The per-symbol loop of `download_stock_data`, accumulating the
`all_data` and `errors` lists. -/
def downloadAux (fetch : String → Except String YfFrame) :
    List String → List (List PriceRow) → List String →
    List (List PriceRow) × List String
  | [], allData, errs => (allData, errs)
  | s :: rest, allData, errs =>
      match fetch s with
      | .error e =>
          downloadAux fetch rest allData (errs ++ [s ++ ": Error - " ++ e])
      | .ok f =>
          if f.rows.isEmpty then
            downloadAux fetch rest allData (errs ++ [s ++ ": No data available"])
          else
            downloadAux fetch rest (allData ++ [normalizeFrame s f]) errs

/-- `download_stock_data(stock_list, start_date, end_date)` with the
provider call modelled by `fetch` (already closed over the date range):
`None` when no symbol yielded data, else the `pd.concat` of the
per-symbol normalized frames, plus the accumulated error strings. -/
def download_stock_data (fetch : String → Except String YfFrame)
    (stocks : List String) : Option (List PriceRow) × List String :=
  let res := downloadAux fetch stocks [] []
  if res.1.isEmpty then
    (none, if res.2.isEmpty then ["No valid data for any stock"] else res.2)
  else
    (some res.1.flatten, res.2)

/-- Spec-side: the error string each failing symbol must contribute, in
request order. -/
def fetchErrorsOf (fetch : String → Except String YfFrame)
    (stocks : List String) : List String :=
  stocks.filterMap fun s =>
    match fetch s with
    | .error e => some (s ++ ": Error - " ++ e)
    | .ok f => if f.rows.isEmpty then some (s ++ ": No data available") else none

/-- Spec-side: the normalized table each successful symbol contributes
(exactly the columns Date, Close, Name with Name = the symbol), in
request order. -/
def successGroups (fetch : String → Except String YfFrame)
    (stocks : List String) : List (List PriceRow) :=
  stocks.filterMap fun s =>
    match fetch s with
    | .error _ => none
    | .ok f =>
        if f.rows.isEmpty then none
        else some (f.rows.map fun r => PriceRow.mk r.date r.close s)

/-- A symbol on which the provider yields no usable data: the call raises
or returns an empty frame. -/
def symbolFails (fetch : String → Except String YfFrame) (s : String) : Prop :=
  (∃ e, fetch s = .error e) ∨ (∃ f, fetch s = .ok f ∧ f.rows.isEmpty = true)

/-! ## CSV ingestor (`parse_csv`, src/app.py lines 68-79) -/

/-- A parsed CSV frame: its column names and, when present, the values of
the `Stock` column in original row order. -/
structure CsvFrame where
  cols : List String
  stockVals : List String
deriving DecidableEq, Repr

/-- `filename.endswith('.csv')`, on the underlying characters. -/
def hasCsvExt (filename : String) : Bool :=
  ".csv".data.isSuffixOf filename.data

/-- `parse_csv(contents, filename)` with the base64+UTF-8 decode and
`pd.read_csv` call modelled by `readCsv` on the decoded payload. -/
def parse_csv (readCsv : String → Except String CsvFrame)
    (contents : Option String) (filename : String) :
    Option CsvFrame × String :=
  match contents with
  | none => (none, "Please upload a valid CSV file.")
  | some c =>
      if hasCsvExt filename = false then
        (none, "Please upload a valid CSV file.")
      else
        match readCsv c with
        | .error e => (none, "Error parsing CSV: " ++ e)
        | .ok df =>
            if "Stock" ∈ df.cols then
              (some df, "Uploaded " ++ filename ++ " successfully.")
            else
              (none, "CSV must contain a 'Stock' column.")

/-! ## Presentation adapter (`update_options`, src/app.py lines 126-150) -/

/-- A dropdown option dictionary `{'label': ..., 'value': ...}`. -/
structure DDOpt where
  label : String
  value : String
deriving DecidableEq, Repr

/-- Stand-in for `date.strftime('%Y-%m-%d')`: the rendering of a date. -/
def dateStr (d : Int) : String :=
  toString d

/-- `sorted(df['Date'].unique())`: first-occurrence de-duplication, then
an ascending sort. -/
def sortedUniqueDates (rows : List PriceRow) : List Int :=
  List.insertionSort (· ≤ ·) ((rows.map fun r => r.date).dedup)

/-- `update_options(contents, filename, start_date, end_date)` with the
external CSV parser and market-data provider as parameters. -/
def update_options (readCsv : String → Except String CsvFrame)
    (fetch : String → Except String YfFrame) (contents : Option String)
    (filename : String) (startDate endDate : Option Int) :
    List DDOpt × List String × List DDOpt × Option String × String :=
  match contents, startDate, endDate with
  | some c, some _, some _ =>
      (match parse_csv readCsv (some c) filename with
       | (none, message) => ([], [], [], none, message)
       | (some df, message) =>
           match download_stock_data fetch df.stockVals with
           | (none, errs) =>
               ([], [], [], none,
                message ++ " Errors: " ++ String.intercalate ", " errs)
           | (some priceRows, errs) =>
               let stockOptions := df.stockVals.map fun s => DDOpt.mk s s
               let cutoffOptions := (sortedUniqueDates priceRows).map
                 fun d => DDOpt.mk (dateStr d) (dateStr d)
               let errorMsg :=
                 if errs.isEmpty then ""
                 else " Errors: " ++ String.intercalate ", " errs
               (stockOptions, df.stockVals.take 1, cutoffOptions,
                (cutoffOptions.head?).map (fun o => o.value),
                message ++ errorMsg))
  | _, _, _ => ([], [], [], none, "Upload a CSV and select dates to proceed.")

/-! ## Concrete collaborators used by witnesses and counterexamples -/

/-- A CSV parser returning a frame whose Stock column lists AAA twice. -/
def readCsvDup : String → Except String CsvFrame :=
  fun _ => .ok (CsvFrame.mk ["Stock"] ["AAA", "AAA"])

/-- A provider returning a single-row frame for every symbol. -/
def fetchOne : String → Except String YfFrame :=
  fun _ => .ok (YfFrame.mk false [YfRow.mk 1 10 10 10 10 0])

/-- A provider that raises on every symbol. -/
def fetchRaise : String → Except String YfFrame :=
  fun _ => .error "HTTPError"

/-! ## List helper lemmas -/

/-- Indexing a `zipWith` is the pointwise application. -/
theorem zipWith_getElem?_eq {α β γ : Type} (f : α → β → γ) :
    ∀ (as : List α) (bs : List β) (i : ℕ),
      (List.zipWith f as bs)[i]? =
        match as[i]?, bs[i]? with
        | some a, some b => some (f a b)
        | _, _ => none := by
  intro as
  induction as with
  | nil => intro bs i; simp
  | cons a as ih =>
      intro bs i
      cases bs with
      | nil => simp
      | cons b bs =>
          cases i with
          | zero => simp
          | succ j => simpa using ih bs j

/-- Membership in a `take` prefix yields an index below the cut. -/
theorem mem_take_exists_getElem? {α : Type} :
    ∀ (l : List α) (i : ℕ) (a : α), a ∈ l.take i →
      ∃ j, j < i ∧ l[j]? = some a := by
  intro l
  induction l with
  | nil => intro i a h; simp at h
  | cons x xs ih =>
      intro i a h
      cases i with
      | zero => simp at h
      | succ j =>
          rw [List.take_succ_cons] at h
          rcases List.mem_cons.mp h with h | h
          · exact ⟨0, Nat.succ_pos j, by simp [h]⟩
          · obtain ⟨k, hk, hg⟩ := ih j a h
            exact ⟨k + 1, Nat.succ_lt_succ hk, by simpa using hg⟩

/-- `lookupClose` misses exactly when no pair carries the name. -/
theorem lookupClose_eq_none (n : String) :
    ∀ l : List (String × ℚ), (∀ p ∈ l, p.1 ≠ n) → lookupClose n l = none := by
  intro l
  induction l with
  | nil => intro _; rfl
  | cons p rest ih =>
      intro h
      obtain ⟨m, c⟩ := p
      have hm : m ≠ n := h (m, c) (List.mem_cons_self _ _)
      simp only [lookupClose, if_neg hm]
      exact ih fun q hq => h q (List.mem_cons_of_mem _ hq)

/-! ## Structural lemmas about the transform pipeline -/

/-- The `Change` column has one entry per row. -/
theorem changeColAux_length :
    ∀ (rows : List PriceRow) (seen : List (String × ℚ)),
      (changeColAux seen rows).length = rows.length := by
  intro rows
  induction rows with
  | nil => intro seen; rfl
  | cons r rs ih => intro seen; simp [changeColAux, ih]

/-- The cumulative column has one entry per row. -/
theorem cumsumAux_length :
    ∀ (l : List (String × PVal)) (accs : List (String × PVal)),
      (cumsumAux accs l).length = l.length := by
  intro l
  induction l with
  | nil => intro accs; rfl
  | cons p rest ih =>
      intro accs
      obtain ⟨n, v⟩ := p
      by_cases hv : v.isNan <;> simp [cumsumAux, hv, ih]

/-- Indexing the per-group `pct_change` loop: the entry of row `i` is the
percentage change against the most recent same-name close among the rows
before `i` and the carried-in `seen` list. -/
theorem changeColAux_getElem? :
    ∀ (rows : List PriceRow) (seen : List (String × ℚ)) (i : ℕ) (r : PriceRow),
      rows[i]? = some r →
      (changeColAux seen rows)[i]? =
        some (match lookupClose r.name
                (((rows.take i).reverse.map fun s => (s.name, s.close)) ++ seen) with
              | none => PVal.nan
              | some p => pctChange p r.close) := by
  intro rows
  induction rows with
  | nil => intro seen i r h; simp at h
  | cons x xs ih =>
      intro seen i r h
      cases i with
      | zero =>
          rw [List.getElem?_cons_zero] at h
          cases h
          simp [changeColAux]
      | succ j =>
          rw [List.getElem?_cons_succ] at h
          have step := ih ((x.name, x.close) :: seen) j r h
          simp only [changeColAux, List.getElem?_cons_succ]
          rw [step]
          simp [List.take_succ_cons, List.reverse_cons, List.map_append,
            List.append_assoc]

/-- The code's `Change` column agrees with the spec's raw day-over-day
percentage change within the ticker group. -/
theorem changeCol_getElem?_eq_rawChange (rows : List PriceRow) (i : ℕ)
    (r : PriceRow) (h : rows[i]? = some r) :
    (changeCol rows)[i]? = some (rawChange rows i) := by
  have step := changeColAux_getElem? rows [] i r h
  rw [changeCol, step]
  rw [rawChange, prevClose, h]
  simp only [List.append_nil]
  cases hl : lookupClose r.name
      ((rows.take i).reverse.map fun s => (s.name, s.close)) <;>
    simp [hl]

/-- The `Adjusted_Change` column at row `i` is the lambda applied to the
row's date and raw change. -/
theorem adjustedCol_getElem? (rows : List PriceRow) (cutoff : Int) (i : ℕ)
    (r : PriceRow) (h : rows[i]? = some r) :
    (adjustedCol rows cutoff)[i]? =
      some (adjustedChange cutoff r.date (rawChange rows i)) := by
  rw [adjustedCol, zipWith_getElem?_eq, h,
    changeCol_getElem?_eq_rawChange rows i r h]

/-- A NaN entry of the cumulative-sum input yields a NaN entry of its
output (pandas `skipna` semantics). -/
theorem cumsumAux_getElem?_nan :
    ∀ (l : List (String × PVal)) (accs : List (String × PVal)) (i : ℕ)
      (n : String) (v : PVal),
      l[i]? = some (n, v) → v.isNan = true →
      (cumsumAux accs l)[i]? = some PVal.nan := by
  intro l
  induction l with
  | nil => intro accs i n v h _; simp at h
  | cons p rest ih =>
      intro accs i n v h hnan
      obtain ⟨m, w⟩ := p
      cases i with
      | zero =>
          rw [List.getElem?_cons_zero] at h
          obtain ⟨rfl, rfl⟩ := Prod.mk.injEq .. ▸ Option.some.injEq .. ▸ h
          simp [cumsumAux, hnan]
      | succ j =>
          rw [List.getElem?_cons_succ] at h
          by_cases hw : w.isNan <;>
            simp only [cumsumAux, hw, if_true, if_false, Bool.false_eq_true,
              List.getElem?_cons_succ] <;>
            exact ih _ j n v h hnan

/-- The pair column fed to the grouped cumulative sum, at row `i`. -/
theorem adjusted_pair_getElem? (rows : List PriceRow) (cutoff : Int) (i : ℕ)
    (r : PriceRow) (h : rows[i]? = some r) :
    (List.zipWith (fun (r : PriceRow) a => (r.name, a)) rows
        (adjustedCol rows cutoff))[i]? =
      some (r.name, adjustedChange cutoff r.date (rawChange rows i)) := by
  rw [zipWith_getElem?_eq, h, adjustedCol_getElem? rows cutoff i r h]

/-- A row whose adjusted change is NaN reports a cumulative change of 0
(the NaN survives `cumsum` and is replaced by `fillna(0)`). -/
theorem cumulativeCol_getElem?_of_nan (rows : List PriceRow) (cutoff : Int)
    (i : ℕ) (r : PriceRow) (h : rows[i]? = some r)
    (hnan : (adjustedChange cutoff r.date (rawChange rows i)).isNan = true) :
    (cumulativeCol rows cutoff)[i]? = some (PVal.num 0) := by
  rw [cumulativeCol, List.getElem?_map,
    cumsumAux_getElem?_nan _ [] i r.name _
      (adjusted_pair_getElem? rows cutoff i r h) hnan]
  rfl

/-- The cumulative column has one entry per input row. -/
theorem cumulativeCol_length (rows : List PriceRow) (cutoff : Int) :
    (cumulativeCol rows cutoff).length = rows.length := by
  simp [cumulativeCol, cumsumAux_length, adjustedCol, changeCol,
    changeColAux_length]

/-- Projecting the (Date, Name) pair out of the zipped output recovers the
input rows' pairs whenever enough cumulative values are supplied. -/
theorem zipWith_mk_map_proj :
    ∀ (rows : List PriceRow) (cs : List PVal), rows.length ≤ cs.length →
      (List.zipWith (fun (r : PriceRow) c => ChangeRow.mk r.date r.name c) rows
          cs).map (fun t => (t.date, t.name)) =
        rows.map fun r => (r.date, r.name) := by
  intro rows
  induction rows with
  | nil => intro cs _; simp
  | cons r rs ih =>
      intro cs hlen
      cases cs with
      | nil => simp at hlen
      | cons c cs =>
          simp only [List.zipWith_cons_cons, List.map_cons]
          rw [ih cs (Nat.succ_le_succ_iff.mp hlen)]

/-! ## Claim theorems -/

/-- C1: in the cumulative-change transform, the adjusted change of every
row dated at or before the cutoff is 0, and of every row dated strictly
after the cutoff equals the raw day-over-day percentage change of that
row within its ticker group. -/
theorem adjusted_change_cutoff_rule (rows : List PriceRow) (cutoff : Int)
    (i : ℕ) (r : PriceRow) (h : rows[i]? = some r) :
    (r.date ≤ cutoff → (adjustedCol rows cutoff)[i]? = some (PVal.num 0)) ∧
    (cutoff < r.date → (adjustedCol rows cutoff)[i]? = some (rawChange rows i)) := by
  constructor
  · intro hle
    rw [adjustedCol_getElem? rows cutoff i r h]
    simp only [adjustedChange, if_pos hle]
  · intro hlt
    rw [adjustedCol_getElem? rows cutoff i r h]
    simp only [adjustedChange, if_neg (not_le.mpr hlt)]

theorem adjusted_change_cutoff_rule_witness :
    (adjustedCol [PriceRow.mk 1 100 "A", PriceRow.mk 2 102 "A"] 1)[1]? =
      some (rawChange [PriceRow.mk 1 100 "A", PriceRow.mk 2 102 "A"] 1) :=
  (adjusted_change_cutoff_rule [PriceRow.mk 1 100 "A", PriceRow.mk 2 102 "A"]
    1 1 (PriceRow.mk 2 102 "A") rfl).2 (by norm_num)

/-- C2: on AAA closes 100, 102, 101 over three consecutive dates with the
cutoff at the first date, the transform yields the cumulative sequence
[0, 0.02, 0.02 + (101 - 102)/102] in date order. -/
theorem cumulative_change_example_AAA :
    calculate_cumulative_change
        [PriceRow.mk 20240101 100 "AAA", PriceRow.mk 20240102 102 "AAA",
         PriceRow.mk 20240103 101 "AAA"] 20240101 =
      [ChangeRow.mk 20240101 "AAA" (PVal.num 0),
       ChangeRow.mk 20240102 "AAA" (PVal.num (1/50)),
       ChangeRow.mk 20240103 "AAA" (PVal.num (1/50 + (101 - 102)/102))] := by
  simp [calculate_cumulative_change, cumulativeCol, adjustedCol, changeCol,
    changeColAux, pctChange, adjustedChange, cumsumAux, lookupAcc, lookupClose,
    fillna0, PVal.add, PVal.isNan]
  norm_num

/-- C3 counterexample: on a ticker group whose first close is 0 and whose
second close is 1 (dates 1 and 2, cutoff 1), the second row's previous
close is zero, yet its Cumulative_Change is +∞ — the undefined change is
not treated as zero and the output is not finite. -/
theorem zero_prev_close_counterexample :
    prevClose [PriceRow.mk 1 0 "A", PriceRow.mk 2 1 "A"] 1 = some 0 ∧
    (calculate_cumulative_change [PriceRow.mk 1 0 "A", PriceRow.mk 2 1 "A"]
        1).map (fun t => t.cumulative) = [PVal.num 0, PVal.inf true] ∧
    (PVal.inf true).isFinite = false := by
  refine ⟨?_, ?_, rfl⟩
  · simp [prevClose, lookupClose]
  · simp [calculate_cumulative_change, cumulativeCol, adjustedCol, changeCol,
      changeColAux, pctChange, adjustedChange, cumsumAux, lookupAcc,
      lookupClose, fillna0, PVal.add, PVal.isNan]

/-- C3 (amended): the transform is total on a zero previous close; when
the row's own close is also zero the change is undefined (NaN), is skipped
by the cumulative sum, and the row (dated after the cutoff) reports a
Cumulative_Change of 0; when the row's own close is nonzero the change is
±∞ and enters the Adjusted_Change (and hence the cumulative sum) instead
of being treated as zero. -/
theorem zero_prev_close_soft (rows : List PriceRow) (cutoff : Int) (i : ℕ)
    (r : PriceRow) (h : rows[i]? = some r) (hprev : prevClose rows i = some 0)
    (hcut : cutoff < r.date) :
    (r.close = 0 →
      (changeCol rows)[i]? = some PVal.nan ∧
      (cumulativeCol rows cutoff)[i]? = some (PVal.num 0)) ∧
    (r.close ≠ 0 →
      (changeCol rows)[i]? = some (PVal.inf (decide (0 < r.close))) ∧
      (adjustedCol rows cutoff)[i]? = some (PVal.inf (decide (0 < r.close)))) := by
  have hraw : rawChange rows i = pctChange 0 r.close := by
    simp only [rawChange, h, hprev]
  constructor
  · intro hc0
    have hnan : rawChange rows i = PVal.nan := by
      rw [hraw]; simp [pctChange, hc0]
    refine ⟨by rw [changeCol_getElem?_eq_rawChange rows i r h, hnan], ?_⟩
    apply cumulativeCol_getElem?_of_nan rows cutoff i r h
    rw [hnan]
    simp only [adjustedChange, if_neg (not_le.mpr hcut)]
    rfl
  · intro hc
    have hinf : rawChange rows i = PVal.inf (decide (0 < r.close)) := by
      rw [hraw]; simp [pctChange, hc]
    refine ⟨by rw [changeCol_getElem?_eq_rawChange rows i r h, hinf], ?_⟩
    rw [adjustedCol_getElem? rows cutoff i r h]
    simp only [adjustedChange, if_neg (not_le.mpr hcut)]
    rw [hinf]

theorem zero_prev_close_soft_witness :
    (changeCol [PriceRow.mk 1 100 "A", PriceRow.mk 2 0 "A",
        PriceRow.mk 3 0 "A"])[2]? = some PVal.nan ∧
    (cumulativeCol [PriceRow.mk 1 100 "A", PriceRow.mk 2 0 "A",
        PriceRow.mk 3 0 "A"] 1)[2]? = some (PVal.num 0) :=
  (zero_prev_close_soft
      [PriceRow.mk 1 100 "A", PriceRow.mk 2 0 "A", PriceRow.mk 3 0 "A"] 1 2
      (PriceRow.mk 3 0 "A") rfl (by simp [prevClose, lookupClose])
      (by norm_num)).1 rfl

/-- C4: the first observation of a ticker group (its rows date-ascending,
its first date strictly after the cutoff) reports a Cumulative_Change of
0; in particular a single-observation group yields the single value 0. -/
theorem first_of_group_cumulative_zero (rows : List PriceRow) (cutoff : Int)
    (i : ℕ) (r : PriceRow) (h : rows[i]? = some r)
    (hfirst : ∀ j s, j < i → rows[j]? = some s → s.name ≠ r.name)
    (_hasc : List.Chain' (· ≤ ·)
      ((rows.filter fun s => s.name = r.name).map fun s => s.date))
    (hcut : cutoff < r.date) :
    (calculate_cumulative_change rows cutoff)[i]? =
      some (ChangeRow.mk r.date r.name (PVal.num 0)) := by
  have hprev : prevClose rows i = none := by
    rw [prevClose, h]
    apply lookupClose_eq_none
    intro p hp
    rw [List.mem_map] at hp
    obtain ⟨s, hs, rfl⟩ := hp
    rw [List.mem_reverse] at hs
    obtain ⟨j, hj, hg⟩ := mem_take_exists_getElem? rows i s hs
    exact hfirst j s hj hg
  have hraw : rawChange rows i = PVal.nan := by
    simp only [rawChange, h, hprev]
  have hcum : (cumulativeCol rows cutoff)[i]? = some (PVal.num 0) := by
    apply cumulativeCol_getElem?_of_nan rows cutoff i r h
    rw [hraw]
    simp only [adjustedChange, if_neg (not_le.mpr hcut)]
    rfl
  rw [calculate_cumulative_change, zipWith_getElem?_eq, h, hcum]

theorem first_of_group_cumulative_zero_witness :
    (calculate_cumulative_change [PriceRow.mk 5 100 "A"] 4)[0]? =
      some (ChangeRow.mk 5 "A" (PVal.num 0)) :=
  first_of_group_cumulative_zero [PriceRow.mk 5 100 "A"] 4 0
    (PriceRow.mk 5 100 "A") rfl
    (fun j s hj _ => absurd hj (Nat.not_lt_zero j)) (by simp) (by norm_num)

/-- C10: the transform emits exactly one output row per input row, with
the same (Date, Name) pairs in the same order, and its output carries
exactly the columns Date, Name, Cumulative_Change. -/
theorem calc_frame_preservation (rows : List PriceRow) (cutoff : Int) :
    (calculate_cumulative_change rows cutoff).map (fun t => (t.date, t.name)) =
      rows.map (fun r => (r.date, r.name)) ∧
    (calculate_cumulative_change rows cutoff).length = rows.length ∧
    calcOutputCols = ["Date", "Name", "Cumulative_Change"] := by
  refine ⟨?_, ?_, rfl⟩
  · exact zipWith_mk_map_proj rows _
      (le_of_eq (cumulativeCol_length rows cutoff).symm)
  · simp [calculate_cumulative_change, cumulativeCol_length]

/-! ## Lemmas about the market data fetcher -/

/-- The per-symbol loop appends exactly the success groups and the error
strings of the remaining symbols, in request order. -/
theorem downloadAux_eq (fetch : String → Except String YfFrame) :
    ∀ (stocks : List String) (allData : List (List PriceRow))
      (errs : List String),
      downloadAux fetch stocks allData errs =
        (allData ++ successGroups fetch stocks,
         errs ++ fetchErrorsOf fetch stocks) := by
  intro stocks
  induction stocks with
  | nil => intro ad errs; simp [downloadAux, successGroups, fetchErrorsOf]
  | cons s rest ih =>
      intro ad errs
      cases hf : fetch s with
      | error e =>
          simp only [downloadAux, hf]
          rw [ih]
          simp [successGroups, fetchErrorsOf, List.filterMap_cons, hf,
            List.append_assoc]
      | ok f =>
          by_cases hemp : f.rows.isEmpty
          · rw [List.isEmpty_iff] at hemp
            simp only [downloadAux, hf, hemp, List.isEmpty_nil, if_true]
            rw [ih]
            simp [successGroups, fetchErrorsOf, List.filterMap_cons, hf, hemp,
              List.append_assoc]
          · rw [List.isEmpty_iff] at hemp
            simp only [downloadAux, hf]
            rw [if_neg (by simpa [List.isEmpty_iff] using hemp), ih]
            simp [successGroups, fetchErrorsOf, List.filterMap_cons, hf, hemp,
              List.append_assoc, normalizeFrame]

/-- Closed form of `download_stock_data` in terms of the spec-side
success groups and error strings. -/
theorem download_eval (fetch : String → Except String YfFrame)
    (stocks : List String) :
    download_stock_data fetch stocks =
      (if successGroups fetch stocks = [] then
         (none,
          if fetchErrorsOf fetch stocks = [] then ["No valid data for any stock"]
          else fetchErrorsOf fetch stocks)
       else
         (some (successGroups fetch stocks).flatten,
          fetchErrorsOf fetch stocks)) := by
  by_cases hsg : successGroups fetch stocks = []
  · by_cases herr : fetchErrorsOf fetch stocks = [] <;>
      simp [download_stock_data, downloadAux_eq, hsg, herr]
  · simp [download_stock_data, downloadAux_eq, hsg,
      List.isEmpty_iff]

/-- A symbol on which every fetch fails contributes no success group. -/
theorem successGroups_eq_nil_of_fails (fetch : String → Except String YfFrame) :
    ∀ stocks : List String, (∀ s ∈ stocks, symbolFails fetch s) →
      successGroups fetch stocks = [] := by
  intro stocks
  induction stocks with
  | nil => intro _; rfl
  | cons s rest ih =>
      intro hfail
      have hs := hfail s (List.mem_cons_self s rest)
      have htail : successGroups fetch rest = [] :=
        ih fun t ht => hfail t (List.mem_cons_of_mem s ht)
      rcases hs with ⟨e, he⟩ | ⟨f, hf, hemp⟩
      · simp only [successGroups, List.filterMap_cons, he]
        exact htail
      · simp only [successGroups, List.filterMap_cons, hf, hemp, if_true]
        exact htail

/-- A nonempty request with no successful symbol accumulates at least one
error string. -/
theorem fetchErrorsOf_ne_nil (fetch : String → Except String YfFrame)
    (stocks : List String) (hne : stocks ≠ [])
    (hsg : successGroups fetch stocks = []) :
    fetchErrorsOf fetch stocks ≠ [] := by
  obtain ⟨s, rest, rfl⟩ := List.exists_cons_of_ne_nil hne
  cases hf : fetch s with
  | error e => simp [fetchErrorsOf, List.filterMap_cons, hf]
  | ok f =>
      by_cases hemp : f.rows.isEmpty
      · rw [List.isEmpty_iff] at hemp
        simp [fetchErrorsOf, List.filterMap_cons, hf, hemp]
      · rw [List.isEmpty_iff] at hemp
        exfalso
        simp [successGroups, List.filterMap_cons, hf, hemp] at hsg

/-- C5: `download_stock_data` processes every requested symbol: each
failing symbol contributes exactly its error string ("No data available"
for an empty result, "Error - {message}" for an exception), in request
order, and the collected rows are exactly the normalized rows of the
successful symbols, unaffected by the failures. -/
theorem download_per_symbol (fetch : String → Except String YfFrame)
    (stocks : List String) (hne : stocks ≠ []) :
    (download_stock_data fetch stocks).2 = fetchErrorsOf fetch stocks ∧
    (download_stock_data fetch stocks).1 =
      (if successGroups fetch stocks = [] then none
       else some (successGroups fetch stocks).flatten) := by
  rw [download_eval]
  by_cases hsg : successGroups fetch stocks = []
  · have herr := fetchErrorsOf_ne_nil fetch stocks hne hsg
    simp [hsg, herr]
  · simp [hsg]

theorem download_per_symbol_witness :
    (download_stock_data fetchOne ["AAA"]).2 = fetchErrorsOf fetchOne ["AAA"] :=
  (download_per_symbol fetchOne ["AAA"] (by simp)).1

/-- C6: when every requested symbol fails, `download_stock_data` returns
the distinguished no-data signal `None` — distinguishable from an
empty-but-successful table — together with the accumulated per-symbol
error list, which is nonempty. -/
theorem download_all_failed (fetch : String → Except String YfFrame)
    (stocks : List String) (hne : stocks ≠ [])
    (hfail : ∀ s ∈ stocks, symbolFails fetch s) :
    (download_stock_data fetch stocks).1 = none ∧
    (download_stock_data fetch stocks).1 ≠ some [] ∧
    (download_stock_data fetch stocks).2 = fetchErrorsOf fetch stocks ∧
    fetchErrorsOf fetch stocks ≠ [] := by
  have hsg := successGroups_eq_nil_of_fails fetch stocks hfail
  have herr := fetchErrorsOf_ne_nil fetch stocks hne hsg
  rw [download_eval]
  simp [hsg, herr]

theorem download_all_failed_witness :
    (download_stock_data fetchRaise ["ZZZZ"]).1 = none :=
  (download_all_failed fetchRaise ["ZZZZ"] (by simp)
    (fun _ _ => Or.inl ⟨"HTTPError", rfl⟩)).1

/-- `takeWhile` keeps a list all of whose elements satisfy the predicate. -/
theorem takeWhile_all {α : Type} (p : α → Bool) :
    ∀ l : List α, (∀ c ∈ l, p c = true) → l.takeWhile p = l := by
  intro l
  induction l with
  | nil => intro _; rfl
  | cons c t ih =>
      intro h
      rw [List.takeWhile_cons, h c (List.mem_cons_self c t)]
      simp only [if_true]
      rw [ih fun b hb => h b (List.mem_cons_of_mem c hb)]

/-- `dropWhile` fixes a list none of whose elements satisfy the predicate. -/
theorem dropWhile_all_false {α : Type} (p : α → Bool) (l : List α)
    (h : ∀ c ∈ l, p c = false) : l.dropWhile p = l := by
  cases l with
  | nil => rfl
  | cons c t => simp [List.dropWhile_cons, h c (List.mem_cons_self c t)]

/-- `takeWhile` cuts a good prefix exactly at the first failing element. -/
theorem takeWhile_append_break {α : Type} (p : α → Bool) (c : α)
    (hc : p c = false) :
    ∀ (u v : List α), (∀ a ∈ u, p a = true) → (u ++ c :: v).takeWhile p = u := by
  intro u
  induction u with
  | nil => intro v _; simp [List.takeWhile_cons, hc]
  | cons a t ih =>
      intro v h
      rw [List.cons_append, List.takeWhile_cons, h a (List.mem_cons_self a t)]
      simp only [if_true]
      rw [ih v fun b hb => h b (List.mem_cons_of_mem a hb)]

/-- Join-with-space, strip, then take the first token: recovers any
whitespace-free first level, whatever the second level is. -/
theorem headToken_flatten (w sym : List Char) (hne : w ≠ [])
    (hw : ∀ c ∈ w, c.isWhitespace = false) :
    headToken (flattenLevels [w, sym]) = w := by
  have hw' : ∀ c ∈ w, (c != ' ') = true := by
    intro c hc
    rcases eq_or_ne c ' ' with rfl | hnsp
    · simpa using hw _ hc
    · simp [hnsp]
  have hjoin : List.intercalate [' '] [w, sym] = w ++ ' ' :: sym := by
    simp [List.intercalate, List.intersperse]
  have hwrev : List.dropWhile Char.isWhitespace w.reverse = w.reverse :=
    dropWhile_all_false _ _ fun c hc => hw c (List.mem_reverse.mp hc)
  have h₁ : (w ++ ' ' :: sym).dropWhile Char.isWhitespace = w ++ ' ' :: sym := by
    cases w with
    | nil => exact absurd rfl hne
    | cons c0 w' =>
        rw [List.cons_append]
        simp [List.dropWhile_cons, hw c0 (List.mem_cons_self c0 w')]
  rw [flattenLevels, stripChars, hjoin, h₁, List.reverse_append,
    List.reverse_cons, List.append_assoc, List.singleton_append,
    List.dropWhile_append]
  by_cases he : (sym.reverse.dropWhile Char.isWhitespace).isEmpty
  · rw [if_pos he, List.dropWhile_cons]
    have hsp : (' '.isWhitespace) = true := by decide
    rw [hsp]
    simp only [if_true]
    rw [hwrev, List.reverse_reverse, headToken, takeWhile_all _ w hw']
  · rw [if_neg he, List.reverse_append, List.reverse_cons,
      List.reverse_reverse, List.append_assoc, List.singleton_append,
      headToken, takeWhile_append_break _ ' ' (by decide) w _ hw']

/-- The flattening sends the hierarchical labels of any symbol to the
flat Date/Open/High/Low/Close/Volume labels. -/
theorem processCols_multiIdx (sym : List Char) :
    processCols true sym = yfColsFlat := by
  rw [processCols, if_pos rfl, yfColsMulti]
  simp only [List.map_cons, List.map_nil]
  rw [headToken_flatten "Date".data [] (by decide) (by decide),
    headToken_flatten "Open".data sym (by decide) (by decide),
    headToken_flatten "High".data sym (by decide) (by decide),
    headToken_flatten "Low".data sym (by decide) (by decide),
    headToken_flatten "Close".data sym (by decide) (by decide),
    headToken_flatten "Volume".data sym (by decide) (by decide)]
  rfl

/-- Flat provider labels pass through the renaming unchanged. -/
theorem processCols_flat (sym : List Char) :
    processCols false sym = yfColsFlat := by
  have h : processCols false sym = yfColsFlat.map headToken := rfl
  rw [h]
  decide

/-- C7: a successful `download_stock_data` result is exactly the
ticker-major concatenation, in request order, of the successful symbols'
rows, each row carrying exactly (Date, Close, Name = its symbol) with the
rows in provider order; and the column-label renaming turns both the
hierarchical and the flat provider labels into the flat
Date/Open/High/Low/Close/Volume labels, for every symbol. -/
theorem download_success_shape (fetch : String → Except String YfFrame)
    (stocks : List String) (rows : List PriceRow)
    (h : (download_stock_data fetch stocks).1 = some rows) :
    rows = (successGroups fetch stocks).flatten ∧
    (∀ sym, processCols true sym = yfColsFlat) ∧
    (∀ sym, processCols false sym = yfColsFlat) := by
  rw [download_eval] at h
  by_cases hsg : successGroups fetch stocks = []
  · simp [hsg] at h
  · simp only [hsg, if_false, if_neg hsg] at h
    exact ⟨by injection h with h; exact h.symm, processCols_multiIdx,
      processCols_flat⟩

theorem download_success_shape_witness :
    [PriceRow.mk 1 10 "AAA"] = (successGroups fetchOne ["AAA"]).flatten ∧
    (∀ sym, processCols true sym = yfColsFlat) ∧
    (∀ sym, processCols false sym = yfColsFlat) :=
  download_success_shape fetchOne ["AAA"] [PriceRow.mk 1 10 "AAA"] rfl

/-! ## CSV ingestor and presentation adapter claims -/

/-- C8: `parse_csv` on an uploaded payload fails (returns no frame,
with a message) exactly when the filename does not end in `.csv`, or
decoding/parsing the payload fails, or the parsed table lacks a `Stock`
column; on success it returns the parsed frame itself (hence the Stock
column in the original row order). -/
theorem parse_csv_failure_iff (readCsv : String → Except String CsvFrame)
    (c filename : String) :
    ((parse_csv readCsv (some c) filename).1 = none ↔
      (hasCsvExt filename = false ∨ (∃ e, readCsv c = .error e) ∨
        (∃ df, readCsv c = .ok df ∧ "Stock" ∉ df.cols))) ∧
    (∀ df, (parse_csv readCsv (some c) filename).1 = some df ↔
      (hasCsvExt filename = true ∧ readCsv c = .ok df ∧
        "Stock" ∈ df.cols)) := by
  by_cases hcsv : hasCsvExt filename = false
  · constructor
    · simp [parse_csv, hcsv]
    · intro df
      simp [parse_csv, hcsv]
  · have hcsv' : hasCsvExt filename = true := by
      cases h : hasCsvExt filename
      · exact absurd h hcsv
      · rfl
    cases hr : readCsv c with
    | error e =>
        constructor
        · simp [parse_csv, hcsv', hr]
        · intro df
          simp [parse_csv, hcsv', hr]
    | ok df₀ =>
        by_cases hcol : "Stock" ∈ df₀.cols
        · constructor
          · simp [parse_csv, hcsv', hr, hcol]
          · intro df
            simp only [parse_csv, hcsv', hr, hcol]
            simp [eq_comm]
            exact fun h => h ▸ hcol
        · constructor
          · simp [parse_csv, hcsv', hr, hcol]
          · intro df
            simp [parse_csv, hcsv', hr, hcol]
            exact fun h => h ▸ hcol

theorem parse_csv_failure_iff_witness :
    (parse_csv readCsvDup (some "x") "stocks.txt").1 = none :=
  ((parse_csv_failure_iff readCsvDup "x" "stocks.txt").1).mpr
    (Or.inl (by decide))

/-- C9 counterexample: an upload whose Stock column lists AAA twice makes
`update_options` emit the ticker option AAA twice — the ticker option
list is not de-duplicated. -/
theorem ticker_options_not_dedup :
    (update_options readCsvDup fetchOne (some "payload") "stock_list.csv"
        (some 0) (some 1)).1 =
      [DDOpt.mk "AAA" "AAA", DDOpt.mk "AAA" "AAA"] ∧
    ¬ List.Nodup
      (update_options readCsvDup fetchOne (some "payload") "stock_list.csv"
        (some 0) (some 1)).1 := by
  constructor
  · rfl
  · intro h
    have : (DDOpt.mk "AAA" "AAA") ∉ [DDOpt.mk "AAA" "AAA"] := by
      have h' : (update_options readCsvDup fetchOne (some "payload")
          "stock_list.csv" (some 0) (some 1)).1 =
          [DDOpt.mk "AAA" "AAA", DDOpt.mk "AAA" "AAA"] := rfl
      rw [h'] at h
      exact (List.nodup_cons.mp h).1
    simp at this

/-- C9 (amended): after a successful upload and fetch, the cutoff option
list is the de-duplicated, ascending-sorted date list with label equal to
value (the rendered date); the ticker option list carries one option per
uploaded Stock row in original upload order (it is NOT de-duplicated);
and the default ticker selection is the first uploaded symbol. -/
theorem update_options_shape (readCsv : String → Except String CsvFrame)
    (fetch : String → Except String YfFrame) (c filename m : String)
    (sd ed : Int) (df : CsvFrame) (priceRows : List PriceRow)
    (errs : List String)
    (hp : parse_csv readCsv (some c) filename = (some df, m))
    (hd : download_stock_data fetch df.stockVals = (some priceRows, errs)) :
    (update_options readCsv fetch (some c) filename (some sd) (some ed)).1 =
      df.stockVals.map (fun s => DDOpt.mk s s) ∧
    (update_options readCsv fetch (some c) filename (some sd) (some ed)).2.1 =
      df.stockVals.take 1 ∧
    (update_options readCsv fetch (some c) filename (some sd) (some ed)).2.2.1 =
      (sortedUniqueDates priceRows).map
        (fun d => DDOpt.mk (dateStr d) (dateStr d)) ∧
    List.Sorted (· ≤ ·) (sortedUniqueDates priceRows) ∧
    List.Nodup (sortedUniqueDates priceRows) ∧
    (∀ o ∈ (update_options readCsv fetch (some c) filename (some sd)
        (some ed)).2.2.1, o.label = o.value) ∧
    (update_options readCsv fetch (some c) filename (some sd)
        (some ed)).2.2.2.1 =
      ((sortedUniqueDates priceRows).head?).map dateStr := by
  have hopts : update_options readCsv fetch (some c) filename (some sd)
      (some ed) =
      (df.stockVals.map (fun s => DDOpt.mk s s), df.stockVals.take 1,
       (sortedUniqueDates priceRows).map
         (fun d => DDOpt.mk (dateStr d) (dateStr d)),
       (((sortedUniqueDates priceRows).map
         (fun d => DDOpt.mk (dateStr d) (dateStr d))).head?).map
           (fun o => o.value),
       m ++ (if errs.isEmpty then ""
             else " Errors: " ++ String.intercalate ", " errs)) := by
    simp only [update_options, hp, hd]
  refine ⟨by rw [hopts], by rw [hopts], by rw [hopts], ?_, ?_, ?_, ?_⟩
  · exact List.sorted_insertionSort _ _
  · exact ((List.perm_insertionSort _ _).nodup_iff).mpr (List.nodup_dedup _)
  · intro o ho
    rw [hopts] at ho
    rw [List.mem_map] at ho
    obtain ⟨d, _, rfl⟩ := ho
    rfl
  · rw [hopts]
    simp only [List.head?_map, Option.map_map]
    rfl

theorem update_options_shape_witness :
    (update_options readCsvDup fetchOne (some "payload") "stock_list.csv"
        (some 0) (some 1)).2.1 = List.take 1 ["AAA", "AAA"] :=
  (update_options_shape readCsvDup fetchOne "payload" "stock_list.csv"
    ("Uploaded " ++ "stock_list.csv" ++ " successfully.") 0 1
    (CsvFrame.mk ["Stock"] ["AAA", "AAA"])
    [PriceRow.mk 1 10 "AAA", PriceRow.mk 1 10 "AAA"] [] rfl rfl).2.1
